import Mathlib

/-!
Verification of the selective-harvest program (programs/selective-harvest.py).

The development shallowly embeds the two components of the core:

* the response classifier implemented by the function deliver, built on the
  compiled patterns metadataPat and errorPat of the re module, and
* the harvest orchestrator implemented by harvest and harvestAll, including
  its effect on the filesystem and its success bookkeeping.

Raw text is modelled as List Char.  The two regular expressions are DOTALL
searches; their backtracking semantics is modelled exactly:

* metadataPat, written <metadata[^>]*>(.*)</metadata> with re.S, matched by
  re.search: the match starts at the leftmost occurrence of the literal
  <metadata whose tail can complete; the bracket [^>]* followed by > always
  consumes up to the first > (shrinking it can never help), and the greedy
  group (.*) extends to the last occurrence of </metadata>.
* errorPat, written as an error open marker, a greedy gap, a code attribute
  with a quoted value, a tag close, a greedy group and the error close
  marker, matched by re.search: the greedy gap selects the last occurrence
  of the literal code= for which the remainder of the pattern can complete,
  the quoted value is the run of non-quote characters after the opening
  quote, the tag close is the first > after the closing quote, and the
  greedy group extends to the last occurrence of the error close marker.

The filesystem is an association list from path to file content.  The fetch
capability (curl) and the directory probes of the os module are external
collaborators and enter as oracles: a Net function giving for a URL the
bytes landed on disk (none when the retrieval raises), and a DirEnv function
giving for a path its directory status.
-/

/-- The literal open marker of metadataPat. -/
def mdOpen : List Char := "<metadata".toList

/-- The closing metadata marker tested by deliver and ending metadataPat. -/
def mdClose : List Char := "</metadata>".toList

/-- The closing record-envelope marker tested by deliver. -/
def grClose : List Char := "</GetRecord>".toList

/-- The literal open marker of errorPat. -/
def errOpen : List Char := "<error".toList

/-- The closing error marker tested by deliver and ending errorPat. -/
def errClose : List Char := "</error>".toList

/-- The literal attribute marker of errorPat. -/
def codeEq : List Char := "code=".toList

/-- The single-quote character, written by code point. -/
def squote : Char := Char.ofNat 39

/-- The double-quote character, written by code point. -/
def dquote : Char := Char.ofNat 34

/-- The quote class of errorPat: either kind of quote. -/
def isQuote (c : Char) : Bool := c = squote || c = dquote

/-- Substring containment, modelling the Python operator in for str. -/
def hasSub (pat : List Char) : List Char → Bool
  | [] => pat.isPrefixOf []
  | s@(_ :: t) => pat.isPrefixOf s || hasSub pat t

/-- Index of the last occurrence of pat in s, modelling the target of a
greedy group followed by the literal pat. -/
def findSubLast (pat : List Char) : List Char → Option Nat
  | [] => if pat.isPrefixOf ([] : List Char) then some 0 else none
  | s@(_ :: t) =>
    match findSubLast pat t with
    | some j => some (j + 1)
    | none => if pat.isPrefixOf s then some 0 else none

/-- Tail of metadataPat after the open marker: the bracket [^>]* with the
closing >, then the greedy group up to the last close marker. -/
def mdTail (s : List Char) : Option (List Char) :=
  match s.dropWhile (fun c => decide (c ≠ '>')) with
  | [] => none
  | _ :: rest =>
    match findSubLast mdClose rest with
    | some e => some (rest.take e)
    | none => none

/-- Search of metadataPat, modelling re.search: leftmost start of the open
marker whose tail completes, group one of that match. -/
def mdSearch : List Char → Option (List Char)
  | [] => none
  | s@(_ :: t) =>
    if mdOpen.isPrefixOf s then
      match mdTail (s.drop mdOpen.length) with
      | some r => some r
      | none => mdSearch t
    else mdSearch t

/-- Tail of errorPat after the literal code=: an opening quote, the run of
non-quote characters as group one, a closing quote, the bracket [^>]* with
its closing >, then the greedy group two up to the last error close
marker. -/
def errTail (s : List Char) : Option (List Char × List Char) :=
  match s with
  | [] => none
  | q1 :: rest =>
    if isQuote q1 then
      match rest.dropWhile (fun c => !(isQuote c)) with
      | [] => none
      | _ :: rest2 =>
        match rest2.dropWhile (fun c => decide (c ≠ '>')) with
        | [] => none
        | _ :: rest3 =>
          match findSubLast errClose rest3 with
          | some e => some (rest.takeWhile (fun c => !(isQuote c)), rest3.take e)
          | none => none
    else none

/-- The greedy gap of errorPat: among the positions of the literal code=
after the open marker, the last one whose tail completes wins. -/
def errScan : List Char → Option (List Char × List Char)
  | [] => none
  | s@(_ :: t) =>
    match errScan t with
    | some r => some r
    | none =>
      if codeEq.isPrefixOf s then errTail (s.drop codeEq.length)
      else none

/-- Search of errorPat, modelling re.search: leftmost start of the error
open marker whose region completes. -/
def errSearch : List Char → Option (List Char × List Char)
  | [] => none
  | s@(_ :: t) =>
    if errOpen.isPrefixOf s then
      match errScan (s.drop errOpen.length) with
      | some r => some r
      | none => errSearch t
    else errSearch t

/-- Python str.strip on the whitespace characters of the embedding. -/
def pyStrip (s : List Char) : List Char :=
  ((s.dropWhile Char.isWhitespace).reverse.dropWhile Char.isWhitespace).reverse

/-- The per-identifier outcome of the specification.  The source encodes
protocolError as the diagnostic string code, a colon and the message; the
variant keeps the two parts. -/
inductive FetchOutcome where
  | success (payload : List Char)
  | protocolError (code msg : List Char)
  | malformed (diagnostic : String)
  | transportFailure
deriving DecidableEq, Repr

/-- The classification logic of deliver on the text read back from the
fetched file: metadata markers first, then the error marker, then the
fallback diagnostic. -/
def classify (text : List Char) : FetchOutcome :=
  if hasSub grClose text && hasSub mdClose text then
    match mdSearch text with
    | some g => .success (pyStrip g)
    | none => .malformed "No metadata found"
  else if hasSub errClose text then
    match errSearch text with
    | some r => .protocolError r.1 r.2
    | none => .malformed "Could not parse error message"
  else
    .malformed "No record found and no error message found"

/-- Ascending code-point order on character lists, the order Python uses to
compare strings. -/
def listLe : List Char → List Char → Bool
  | [], _ => true
  | _ :: _, [] => false
  | a :: as, b :: bs =>
    if a < b then true else if b < a then false else listLe as bs

/-- Ascending code-point order on identifier strings. -/
def idLe (a b : String) : Prop := listLe a.data b.data = true

instance : DecidableRel idLe :=
  fun a b => decidable_of_iff (listLe a.data b.data = true) Iff.rfl

/-- The sorted function of Python applied to the identifiers of a set. -/
def sortIds (ids : List String) : List String := List.insertionSort idLe ids

/-- Filesystem contents: an association list from path to file content. -/
abbrev FS := List (String × List Char)

/-- Content of the file at a path, none when no such file exists. -/
def fsGet (fs : FS) (p : String) : Option (List Char) :=
  (fs.find? (fun e => decide (e.1 = p))).map (fun e => e.2)

/-- Writing a file, replacing any previous content at the path. -/
def fsWrite (fs : FS) (p : String) (c : List Char) : FS :=
  (p, c) :: fs.filter (fun e => decide (e.1 ≠ p))

/-- Removing the file at a path when present, as os.unlink guarded by
os.path.exists. -/
def fsDelete (fs : FS) (p : String) : FS :=
  fs.filter (fun e => decide (e.1 ≠ p))

/-- Path containment: p lies in the subtree of the directory dir. -/
def isUnder (dir p : String) : Bool := (dir ++ "/").data.isPrefixOf p.data

/-- Number of files in the subtree of a directory. -/
def countFilesUnder (dir : String) (fs : FS) : Nat :=
  fs.countP (fun e => isUnder dir e.1)

/-- An output set of the task model: a named group of identifiers sharing a
destination subdirectory. -/
structure OutputSet where
  name : String
  ids : List String

/-- A repository task of the task model. -/
structure RepositoryTask where
  name : String
  url : String
  meta : String
  dest : String
  sets : List OutputSet

/-- Status of a path for the directory checks of harvest: an existing
directory, an existing non-directory, or an absent path whose creation by
os.makedirs succeeds or raises. -/
inductive DirStatus where
  | isDir
  | isFile
  | absentOk
  | absentFail
deriving DecidableEq, Repr

/-- The directory-check oracle. -/
def DirEnv := String → DirStatus

/-- The fetch oracle: for a URL, the bytes curl lands at the destination
path, or none when the retrieval fails before a file is produced. -/
def Net := String → Option (List Char)

/-- Outcome of the directory checks made by harvest: pass when the path is
a directory or is created, fail when it is a non-directory or creation
raises. -/
def dirOk : DirStatus → Bool
  | .isDir => true
  | .isFile => false
  | .absentOk => true
  | .absentFail => false

/-- Colon-to-dash sanitization of an identifier for use as a file name. -/
def sanitize (docId : String) : String :=
  ⟨docId.data.map (fun c => if c = ':' then '-' else c)⟩

/-- The GetRecord request URL built by harvest. -/
def docUrl (task : RepositoryTask) (docId : String) : String :=
  task.url ++ "?verb=GetRecord&identifier=" ++ docId ++ "&metadataPrefix=" ++ task.meta

/-- The destination subdirectory of an output set. -/
def setDest (task : RepositoryTask) (os : OutputSet) : String :=
  task.dest ++ "/" ++ os.name

/-- The destination file path of one identifier. -/
def docDest (task : RepositoryTask) (os : OutputSet) (docId : String) : String :=
  setDest task os ++ "/" ++ sanitize docId

/-- The outcome of one identifier: transport failure when the fetch raises,
otherwise the classification of the fetched text. -/
def docOutcome (net : Net) (du : String) : FetchOutcome :=
  match net du with
  | none => .transportFailure
  | some raw => classify raw

/-- Whether the outcome of one identifier counts as a failure. -/
def docFails (net : Net) (du : String) : Bool :=
  match docOutcome net du with
  | .success _ => false
  | _ => true

/-- Processing of one identifier by harvest: curl writes the response to the
destination path, deliver classifies it and on success rewrites the file
with the stripped payload; on any failure the file is removed when present.
Returns the new filesystem and whether the identifier failed. -/
def processDoc (net : Net) (dd du : String) (fs : FS) : FS × Bool :=
  match net du with
  | none => (fsDelete fs dd, true)
  | some raw =>
    let fs1 := fsWrite fs dd raw
    match classify raw with
    | .success payload => (fsWrite fs1 dd payload, false)
    | _ => (fsDelete fs1 dd, true)

/-- Result of the identifier loop of one set. -/
structure IdsRun where
  fs : FS
  nError : Nat
  attempted : List String

/-- The identifier loop of harvest over one set, in the given order. -/
def processIds (net : Net) (task : RepositoryTask) (os : OutputSet) :
    List String → FS → IdsRun
  | [], fs => ⟨fs, 0, []⟩
  | docId :: rest, fs =>
    let p := processDoc net (docDest task os docId) (docUrl task docId) fs
    let r := processIds net task os rest p.1
    ⟨r.fs, r.nError + (if p.2 then 1 else 0), docId :: r.attempted⟩

/-- Result of one output set inside harvest. -/
structure SetRun where
  fs : FS
  nError : Nat
  dirFine : Bool
  attempted : List String

/-- One output set inside harvest: the subdirectory check, then the
identifier loop over the sorted identifiers. -/
def harvestSet (env : DirEnv) (net : Net) (task : RepositoryTask)
    (os : OutputSet) (fs : FS) : SetRun :=
  if dirOk (env (setDest task os)) then
    let r := processIds net task os (sortIds os.ids) fs
    ⟨r.fs, r.nError, true, r.attempted⟩
  else ⟨fs, 0, false, []⟩

/-- Result of one repository task. -/
structure TaskRun where
  fs : FS
  good : Bool
  attempted : List (String × String)

/-- The set loop of harvest: a bad subdirectory or a nonzero error count
marks the task bad, sibling sets still run. -/
def harvestSets (env : DirEnv) (net : Net) (task : RepositoryTask) :
    List OutputSet → FS → TaskRun
  | [], fs => ⟨fs, true, []⟩
  | os :: rest, fs =>
    let r := harvestSet env net task os fs
    let rr := harvestSets env net task rest r.fs
    ⟨rr.fs, (r.dirFine && decide (r.nError = 0)) && rr.good,
      r.attempted.map (fun i => (os.name, i)) ++ rr.attempted⟩

/-- One repository task: the destination-root check, failing the whole task
at once when it fails, then the set loop. -/
def harvest (env : DirEnv) (net : Net) (task : RepositoryTask) (fs : FS) :
    TaskRun :=
  if dirOk (env task.dest) then harvestSets env net task task.sets fs
  else ⟨fs, false, []⟩

/-- Result of a whole run. -/
structure AllRun where
  fs : FS
  good : Bool
  attempted : List (String × String × String)

/-- The task loop of harvestAll. -/
def harvestTasks (env : DirEnv) (net : Net) :
    List RepositoryTask → FS → AllRun
  | [], fs => ⟨fs, true, []⟩
  | task :: rest, fs =>
    let r := harvest env net task fs
    let rr := harvestTasks env net rest r.fs
    ⟨rr.fs, r.good && rr.good, r.attempted.map (fun p => (task.name, p)) ++ rr.attempted⟩

/-- The public contract runHarvest of the specification, the function
harvestAll of the source: true iff every set of every task fully
succeeded. -/
def harvestAll (env : DirEnv) (net : Net) (tasks : List RepositoryTask)
    (fs : FS) : AllRun :=
  harvestTasks env net tasks fs

/-- The recorded failure count of a set: identifiers of the set whose fetch
or classification fails. -/
def setFailures (net : Net) (task : RepositoryTask) (os : OutputSet) : Nat :=
  (sortIds os.ids).countP (fun i => docFails net (docUrl task i))

/-- Full success of one output set: its subdirectory check passes and its
failure count is zero. -/
def setGood (env : DirEnv) (net : Net) (task : RepositoryTask)
    (os : OutputSet) : Bool :=
  dirOk (env (setDest task os)) && decide (setFailures net task os = 0)

/-- Full success of one task: the destination-root check passes and every
set is fully successful. -/
def taskGood (env : DirEnv) (net : Net) (task : RepositoryTask) : Bool :=
  dirOk (env task.dest) && task.sets.all (setGood env net task)

/-! Auxiliary lemmas on substring search. -/

theorem hasSub_iff (pat s : List Char) : hasSub pat s = true ↔ pat <:+: s := by
  induction s with
  | nil => simp [hasSub, List.isPrefixOf_iff_prefix]
  | cons c t ih => simp [hasSub, List.isPrefixOf_iff_prefix, List.infix_cons_iff, ih]

theorem hasSub_eq_false (pat s : List Char) :
    hasSub pat s = false ↔ ¬ pat <:+: s := by
  rw [← hasSub_iff, Bool.eq_false_iff]

theorem findSubLast_isPrefix (pat s : List Char) (j : Nat)
    (h : findSubLast pat s = some j) : pat <+: s.drop j := by
  induction s generalizing j with
  | nil =>
    simp only [findSubLast] at h
    split at h
    · rename_i hp
      obtain rfl : j = 0 := (Option.some.inj h).symm
      simpa using List.isPrefixOf_iff_prefix.mp hp
    · exact absurd h (by simp)
  | cons c t ih =>
    cases h' : findSubLast pat t with
    | some j' =>
      simp only [findSubLast, h'] at h
      obtain rfl : j = j' + 1 := (Option.some.inj h).symm
      simpa using ih j' h'
    | none =>
      simp only [findSubLast, h'] at h
      split at h
      · rename_i hp
        obtain rfl : j = 0 := (Option.some.inj h).symm
        simpa using List.isPrefixOf_iff_prefix.mp hp
      · exact absurd h (by simp)

theorem sub_of_drop {pat l : List Char} (d : Nat) (h : pat <+: l.drop d) :
    pat <:+: l :=
  h.isInfix.trans (List.drop_suffix d l).isInfix

theorem findSubLast_eq_some_of {pat : List Char} (hne : pat ≠ []) (s : List Char)
    (i : Nat) (hpre : pat <+: s.drop i)
    (hmax : ∀ j, i < j → ¬ pat <+: s.drop j) :
    findSubLast pat s = some i := by
  induction s generalizing i with
  | nil =>
    simp only [List.drop_nil, List.prefix_nil] at hpre
    exact absurd hpre hne
  | cons c t ih =>
    cases i with
    | zero =>
      have ht : findSubLast pat t = none := by
        cases h' : findSubLast pat t with
        | some j' =>
          exact absurd (findSubLast_isPrefix pat t j' h')
            (by simpa using hmax (j' + 1) (Nat.succ_pos j'))
        | none => rfl
      have hp : pat.isPrefixOf (c :: t) = true :=
        List.isPrefixOf_iff_prefix.mpr (by simpa using hpre)
      simp [findSubLast, ht, hp]
    | succ i' =>
      have ht : findSubLast pat t = some i' := by
        apply ih i' (by simpa using hpre)
        intro j hj
        simpa using hmax (j + 1) (by omega)
      simp [findSubLast, ht]

theorem findSubLast_sandwich (pat M S : List Char) (hne : pat ≠ [])
    (hLast : ¬ pat <:+: (pat.drop 1 ++ S)) :
    findSubLast pat (M ++ (pat ++ S)) = some M.length := by
  apply findSubLast_eq_some_of hne
  · rw [List.drop_left]
    exact List.prefix_append pat S
  · intro j hj hpre
    apply hLast
    obtain ⟨d, rfl⟩ : ∃ d, j = M.length + (1 + d) := ⟨j - M.length - 1, by omega⟩
    rw [List.drop_append] at hpre
    have e1 : List.drop 1 (pat ++ S) = pat.drop 1 ++ S :=
      List.drop_append_of_le_length (by simpa using List.length_pos.mpr hne)
    have h1 : (pat ++ S).drop (1 + d) = (pat.drop 1 ++ S).drop d := by
      calc (pat ++ S).drop (1 + d) = ((pat ++ S).drop 1).drop d := by
            rw [List.drop_drop]
        _ = (pat.drop 1 ++ S).drop d := by rw [e1]
    rw [h1] at hpre
    exact sub_of_drop d hpre

theorem dropWhile_middle {p : Char → Bool} {X R : List Char} {y : Char}
    (hX : ∀ x ∈ X, p x = true) (hy : p y = false) :
    (X ++ y :: R).dropWhile p = y :: R := by
  have h1 : X.dropWhile p = [] := List.dropWhile_eq_nil_iff.mpr hX
  rw [List.dropWhile_append, h1]
  simp [List.dropWhile_cons_of_neg (show ¬ p y = true by simp [hy])]

theorem takeWhile_middle {p : Char → Bool} {X R : List Char} {y : Char}
    (hX : ∀ x ∈ X, p x = true) (hy : p y = false) :
    (X ++ y :: R).takeWhile p = X := by
  have h1 : X.takeWhile p = X := List.takeWhile_eq_self_iff.mpr hX
  rw [List.takeWhile_append, h1]
  simp [List.takeWhile_cons_of_neg (show ¬ p y = true by simp [hy])]

theorem mdSearch_cons (c : Char) (t : List Char) :
    mdSearch (c :: t) =
      if mdOpen.isPrefixOf (c :: t) then
        match mdTail ((c :: t).drop mdOpen.length) with
        | some r => some r
        | none => mdSearch t
      else mdSearch t := rfl

theorem mdSearch_append (P T : List Char)
    (h : ∀ R, R <:+ P → R ≠ [] → ¬ mdOpen <+: (R ++ T)) :
    mdSearch (P ++ T) = mdSearch T := by
  induction P with
  | nil => simp
  | cons c P' ih =>
    have hnp : ¬ mdOpen.isPrefixOf (c :: (P' ++ T)) = true := by
      rw [List.isPrefixOf_iff_prefix]
      exact fun hp => h (c :: P') (List.suffix_refl _) (by simp) (by simpa using hp)
    rw [List.cons_append, mdSearch_cons, if_neg hnp]
    exact ih (fun R hR hRne => h R (hR.trans (List.suffix_cons c P')) hRne)

theorem mdSearch_eq_none (s : List Char) (h : ¬ mdOpen <:+: s) :
    mdSearch s = none := by
  induction s with
  | nil => rfl
  | cons c t ih =>
    have hnp : ¬ mdOpen.isPrefixOf (c :: t) = true := by
      rw [List.isPrefixOf_iff_prefix]
      exact fun hp => h hp.isInfix
    rw [mdSearch_cons, if_neg hnp]
    exact ih (fun hi => h (hi.trans (List.suffix_cons c t).isInfix))

theorem no_early_open (pat P rest : List Char)
    (h : ¬ pat <:+: (P ++ pat.dropLast)) :
    ∀ R, R <:+ P → R ≠ [] → ¬ pat <+: (R ++ (pat ++ rest)) := by
  intro R hR hRne hpre
  apply h
  rcases Nat.lt_or_ge R.length pat.length with hlen | hlen
  · obtain ⟨P1, rfl⟩ := hR
    have hR1 : 1 ≤ R.length := by
      simpa using List.length_pos.mpr hRne
    have htake : pat = R ++ (pat ++ rest).take (pat.length - R.length) := by
      have h0 := List.prefix_iff_eq_take.mp hpre
      rw [show pat.length = R.length + (pat.length - R.length) by omega,
        List.take_append] at h0
      exact h0
    have hk : (pat ++ rest).take (pat.length - R.length) =
        pat.take (pat.length - R.length) :=
      List.take_append_of_le_length (by omega)
    have hkd : pat.take (pat.length - R.length) <+: pat.dropLast := by
      rw [List.dropLast_eq_take]
      have h2 : pat.take (pat.length - R.length) =
          (pat.take (pat.length - 1)).take (pat.length - R.length) := by
        rw [List.take_take]
        congr 1
        omega
      rw [h2]
      exact List.take_prefix _ _
    rw [hk] at htake
    obtain ⟨u, hu⟩ := hkd
    refine ⟨P1, u, ?_⟩
    have h3 : P1 ++ pat ++ u =
        P1 ++ R ++ (pat.take (pat.length - R.length) ++ u) := by
      conv_lhs => rw [htake]
      simp [List.append_assoc]
    rw [h3, hu]
  · have hppre : pat <+: R := by
      have h0 := List.prefix_iff_eq_take.mp hpre
      rw [List.take_append_of_le_length hlen] at h0
      exact h0 ▸ List.take_prefix _ _
    exact (hppre.isInfix.trans hR.isInfix).trans
      (List.prefix_append P pat.dropLast).isInfix

theorem mdTail_middle (A M S : List Char) (hA : '>' ∉ A)
    (hLast : ¬ mdClose <:+: (mdClose.drop 1 ++ S)) :
    mdTail (A ++ '>' :: (M ++ (mdClose ++ S))) = some M := by
  have hd : (A ++ '>' :: (M ++ (mdClose ++ S))).dropWhile
      (fun c => decide (c ≠ '>')) = '>' :: (M ++ (mdClose ++ S)) := by
    apply dropWhile_middle
    · intro x hx
      simp only [decide_eq_true_eq]
      exact fun he => hA (he ▸ hx)
    · simp
  simp only [mdTail, hd]
  rw [findSubLast_sandwich mdClose M S (by decide) hLast]
  simp [List.take_left]

theorem mdSearch_open_some (X r : List Char) (h : mdTail X = some r) :
    mdSearch (mdOpen ++ X) = some r := by
  have e : mdOpen ++ X = '<' :: ("metadata".toList ++ X) := rfl
  have hpre : mdOpen.isPrefixOf ('<' :: ("metadata".toList ++ X)) = true := by
    rw [← e, List.isPrefixOf_iff_prefix]
    exact List.prefix_append _ _
  have hdrop : ('<' :: ("metadata".toList ++ X)).drop mdOpen.length = X := by
    rw [← e]
    exact List.drop_left _ _
  rw [e, mdSearch_cons, if_pos hpre, hdrop, h]

theorem mdSearch_structured (P A M S : List Char) (hA : '>' ∉ A)
    (hP : ¬ mdOpen <:+: (P ++ mdOpen.dropLast))
    (hLast : ¬ mdClose <:+: (mdClose.drop 1 ++ S)) :
    mdSearch (P ++ (mdOpen ++ (A ++ '>' :: (M ++ (mdClose ++ S))))) = some M := by
  rw [mdSearch_append P _ (no_early_open mdOpen P _ hP)]
  exact mdSearch_open_some _ _ (mdTail_middle A M S hA hLast)

theorem errScan_cons (c : Char) (t : List Char) :
    errScan (c :: t) =
      match errScan t with
      | some r => some r
      | none =>
        if codeEq.isPrefixOf (c :: t) then errTail ((c :: t).drop codeEq.length)
        else none := rfl

theorem errSearch_cons (c : Char) (t : List Char) :
    errSearch (c :: t) =
      if errOpen.isPrefixOf (c :: t) then
        match errScan ((c :: t).drop errOpen.length) with
        | some r => some r
        | none => errSearch t
      else errSearch t := rfl

theorem errScan_append_of_some (U W : List Char)
    (r : List Char × List Char) (h : errScan W = some r) :
    errScan (U ++ W) = some r := by
  induction U with
  | nil => simpa using h
  | cons c U' ih => rw [List.cons_append, errScan_cons, ih]

theorem errScan_eq_none (s : List Char) (h : ¬ codeEq <:+: s) :
    errScan s = none := by
  induction s with
  | nil => rfl
  | cons c t ih =>
    rw [errScan_cons, ih (fun hi => h (hi.trans (List.suffix_cons c t).isInfix))]
    rw [if_neg]
    rw [List.isPrefixOf_iff_prefix]
    exact fun hp => h hp.isInfix

theorem errTail_middle (q q' : Char) (X A2 M S : List Char)
    (hq : isQuote q = true) (hq' : isQuote q' = true)
    (hX : ∀ c ∈ X, isQuote c = false) (hA2 : '>' ∉ A2)
    (hLast : ¬ errClose <:+: (errClose.drop 1 ++ S)) :
    errTail (q :: (X ++ q' :: (A2 ++ '>' :: (M ++ (errClose ++ S))))) =
      some (X, M) := by
  have hXp : ∀ x ∈ X, (!(isQuote x)) = true := by
    intro x hx
    simp [hX x hx]
  have hd1 : (X ++ q' :: (A2 ++ '>' :: (M ++ (errClose ++ S)))).dropWhile
      (fun c => !(isQuote c)) = q' :: (A2 ++ '>' :: (M ++ (errClose ++ S))) :=
    dropWhile_middle hXp (by simp [hq'])
  have ht1 : (X ++ q' :: (A2 ++ '>' :: (M ++ (errClose ++ S)))).takeWhile
      (fun c => !(isQuote c)) = X :=
    takeWhile_middle hXp (by simp [hq'])
  have hd2 : (A2 ++ '>' :: (M ++ (errClose ++ S))).dropWhile
      (fun c => decide (c ≠ '>')) = '>' :: (M ++ (errClose ++ S)) := by
    apply dropWhile_middle
    · intro x hx
      simp only [decide_eq_true_eq]
      exact fun he => hA2 (he ▸ hx)
    · simp
  simp only [errTail, hq, if_pos, hd1, ht1, hd2]
  rw [findSubLast_sandwich errClose M S (by decide) hLast]
  simp [List.take_left]

theorem errScan_structured (q q' : Char) (A1 X A2 M S : List Char)
    (hq : isQuote q = true) (hq' : isQuote q' = true)
    (hX : ∀ c ∈ X, isQuote c = false) (hA2 : '>' ∉ A2)
    (hcd : ¬ codeEq <:+:
      (codeEq.drop 1 ++ (q :: (X ++ q' :: (A2 ++ '>' :: (M ++ (errClose ++ S)))))))
    (hLast : ¬ errClose <:+: (errClose.drop 1 ++ S)) :
    errScan (A1 ++ (codeEq ++ (q :: (X ++ q' :: (A2 ++ '>' :: (M ++ (errClose ++ S))))))) =
      some (X, M) := by
  apply errScan_append_of_some
  have e : codeEq ++ (q :: (X ++ q' :: (A2 ++ '>' :: (M ++ (errClose ++ S))))) =
      'c' :: ("ode=".toList ++ (q :: (X ++ q' :: (A2 ++ '>' :: (M ++ (errClose ++ S)))))) := rfl
  have htail : errScan ("ode=".toList ++ (q :: (X ++ q' :: (A2 ++ '>' :: (M ++ (errClose ++ S)))))) = none :=
    errScan_eq_none _ (by exact hcd)
  have hpre : codeEq.isPrefixOf
      ('c' :: ("ode=".toList ++ (q :: (X ++ q' :: (A2 ++ '>' :: (M ++ (errClose ++ S))))))) = true := by
    rw [← e, List.isPrefixOf_iff_prefix]
    exact List.prefix_append _ _
  have hdrop : ('c' :: ("ode=".toList ++ (q :: (X ++ q' :: (A2 ++ '>' :: (M ++ (errClose ++ S))))))).drop
      codeEq.length = q :: (X ++ q' :: (A2 ++ '>' :: (M ++ (errClose ++ S)))) := by
    rw [← e]
    exact List.drop_left _ _
  rw [e, errScan_cons, htail, if_pos hpre, hdrop]
  exact errTail_middle q q' X A2 M S hq hq' hX hA2 hLast

theorem errSearch_append (P T : List Char)
    (h : ∀ R, R <:+ P → R ≠ [] → ¬ errOpen <+: (R ++ T)) :
    errSearch (P ++ T) = errSearch T := by
  induction P with
  | nil => simp
  | cons c P' ih =>
    have hnp : ¬ errOpen.isPrefixOf (c :: (P' ++ T)) = true := by
      rw [List.isPrefixOf_iff_prefix]
      exact fun hp => h (c :: P') (List.suffix_refl _) (by simp) (by simpa using hp)
    rw [List.cons_append, errSearch_cons, if_neg hnp]
    exact ih (fun R hR hRne => h R (hR.trans (List.suffix_cons c P')) hRne)

theorem errSearch_open_some (X : List Char) (r : List Char × List Char)
    (h : errScan X = some r) : errSearch (errOpen ++ X) = some r := by
  have e : errOpen ++ X = '<' :: ("error".toList ++ X) := rfl
  have hpre : errOpen.isPrefixOf ('<' :: ("error".toList ++ X)) = true := by
    rw [← e, List.isPrefixOf_iff_prefix]
    exact List.prefix_append _ _
  have hdrop : ('<' :: ("error".toList ++ X)).drop errOpen.length = X := by
    rw [← e]
    exact List.drop_left _ _
  rw [e, errSearch_cons, if_pos hpre, hdrop, h]

theorem errSearch_structured (q q' : Char) (P A1 X A2 M S : List Char)
    (hq : isQuote q = true) (hq' : isQuote q' = true)
    (hX : ∀ c ∈ X, isQuote c = false) (hA2 : '>' ∉ A2)
    (hP : ¬ errOpen <:+: (P ++ errOpen.dropLast))
    (hcd : ¬ codeEq <:+:
      (codeEq.drop 1 ++ (q :: (X ++ q' :: (A2 ++ '>' :: (M ++ (errClose ++ S)))))))
    (hLast : ¬ errClose <:+: (errClose.drop 1 ++ S)) :
    errSearch (P ++ (errOpen ++ (A1 ++ (codeEq ++
      (q :: (X ++ q' :: (A2 ++ '>' :: (M ++ (errClose ++ S))))))))) = some (X, M) := by
  rw [errSearch_append P _ (no_early_open errOpen P _ hP)]
  exact errSearch_open_some _ _
    (errScan_structured q q' A1 X A2 M S hq hq' hX hA2 hcd hLast)

theorem errSearch_eq_none_no_code (s : List Char) (h : ¬ codeEq <:+: s) :
    errSearch s = none := by
  induction s with
  | nil => rfl
  | cons c t ih =>
    have iht : errSearch t = none :=
      ih (fun hi => h (hi.trans (List.suffix_cons c t).isInfix))
    cases hp : errOpen.isPrefixOf (c :: t) with
    | false =>
      rw [errSearch_cons, if_neg (by simp [hp]), iht]
    | true =>
      have hscan : errScan ((c :: t).drop errOpen.length) = none := by
        apply errScan_eq_none
        intro hi
        exact h (hi.trans (List.drop_suffix _ _).isInfix)
      rw [errSearch_cons, if_pos (by simp [hp]), hscan, iht]

/-- C2: for raw text that is a record envelope around one metadata fragment
with a gt-free attribute region, a unique close marker and no stray open
marker before the fragment, classify returns Success with exactly the
trimmed inner text of the fragment, irrespective of the surrounding
material; and when the two markers are present but the extraction pattern
finds no open marker at all, classify returns the No metadata found
diagnostic. -/
theorem spec_c2 :
    (∀ P A M S : List Char, '>' ∉ A →
      hasSub mdOpen (P ++ mdOpen.dropLast) = false →
      hasSub mdClose (mdClose.drop 1 ++ S) = false →
      hasSub grClose (P ++ (mdOpen ++ (A ++ '>' :: (M ++ (mdClose ++ S))))) = true →
      classify (P ++ (mdOpen ++ (A ++ '>' :: (M ++ (mdClose ++ S))))) =
        .success (pyStrip M)) ∧
    (∀ text : List Char, hasSub grClose text = true → hasSub mdClose text = true →
      hasSub mdOpen text = false →
      classify text = .malformed "No metadata found") := by
  constructor
  · intro P A M S hA hP hLast hGR
    have hmd : hasSub mdClose
        (P ++ (mdOpen ++ (A ++ '>' :: (M ++ (mdClose ++ S))))) = true := by
      rw [hasSub_iff]
      exact ⟨P ++ (mdOpen ++ (A ++ ('>' :: M))), S, by simp [List.append_assoc]⟩
    have hsearch := mdSearch_structured P A M S hA
      ((hasSub_eq_false _ _).mp hP) ((hasSub_eq_false _ _).mp hLast)
    simp [classify, hGR, hmd, hsearch]
  · intro text hGR hMD hNo
    have hs := mdSearch_eq_none text ((hasSub_eq_false _ _).mp hNo)
    simp [classify, hGR, hMD, hs]

theorem spec_c2_witness :
    classify ("<a>".toList ++ (mdOpen ++ (" x".toList ++ '>' ::
        (" D ".toList ++ (mdClose ++ "</GetRecord>".toList))))) =
      .success (pyStrip " D ".toList) ∧
    classify "</GetRecord></metadata>".toList = .malformed "No metadata found" :=
  ⟨spec_c2.1 "<a>".toList " x".toList " D ".toList "</GetRecord>".toList
      (by decide) (by decide) (by decide) (by decide),
   spec_c2.2 "</GetRecord></metadata>".toList (by decide) (by decide) (by decide)⟩

/-- C3 counterexample: a raw response whose single well-formed error element
has the code attribute X and the enclosed text code=(quote)y(quote)>w, yet
classify returns neither that code nor that message, because the greedy gap
of errorPat latches onto the code= occurrence inside the message. -/
theorem counterexample_c3 :
    classify ("<error code=".toList ++ [dquote, 'X', dquote] ++ ">code=".toList ++
        [squote, 'y', squote] ++ ">w</error>".toList) = .protocolError ['y'] ['w'] ∧
    FetchOutcome.protocolError ['y'] ['w'] ≠
      FetchOutcome.protocolError "X".toList
        ("code=".toList ++ [squote, 'y', squote] ++ ">w".toList) := by
  constructor
  · decide
  · decide

/-- C3 amended: for raw text without the metadata-branch markers holding an
error element whose code attribute is the last code= occurrence of the text
and whose close marker is the last error close marker, classify returns
ProtocolError with that attribute value and the text between the tag close
and that close marker; and when the error close marker is present, the
metadata branch is not taken and the text holds no code= occurrence at all,
classify returns the Could not parse error message diagnostic. -/
theorem spec_c3 :
    (∀ (q q' : Char) (P A1 X A2 M S : List Char),
      isQuote q = true → isQuote q' = true →
      (∀ c ∈ X, isQuote c = false) → '>' ∉ A2 →
      hasSub errOpen (P ++ errOpen.dropLast) = false →
      hasSub codeEq (codeEq.drop 1 ++
        (q :: (X ++ q' :: (A2 ++ '>' :: (M ++ (errClose ++ S)))))) = false →
      hasSub errClose (errClose.drop 1 ++ S) = false →
      (hasSub grClose (P ++ (errOpen ++ (A1 ++ (codeEq ++
          (q :: (X ++ q' :: (A2 ++ '>' :: (M ++ (errClose ++ S))))))))) &&
        hasSub mdClose (P ++ (errOpen ++ (A1 ++ (codeEq ++
          (q :: (X ++ q' :: (A2 ++ '>' :: (M ++ (errClose ++ S)))))))))) = false →
      classify (P ++ (errOpen ++ (A1 ++ (codeEq ++
        (q :: (X ++ q' :: (A2 ++ '>' :: (M ++ (errClose ++ S))))))))) =
        .protocolError X M) ∧
    (∀ text : List Char,
      (hasSub grClose text && hasSub mdClose text) = false →
      hasSub errClose text = true →
      hasSub codeEq text = false →
      classify text = .malformed "Could not parse error message") := by
  constructor
  · intro q q' P A1 X A2 M S hq hq' hX hA2 hP hcd hLast hNR
    have herrc : hasSub errClose (P ++ (errOpen ++ (A1 ++ (codeEq ++
        (q :: (X ++ q' :: (A2 ++ '>' :: (M ++ (errClose ++ S))))))))) = true := by
      rw [hasSub_iff]
      exact ⟨P ++ (errOpen ++ (A1 ++ (codeEq ++ (q :: (X ++ (q' :: (A2 ++ ('>' :: M)))))))),
        S, by simp [List.append_assoc]⟩
    have hsearch := errSearch_structured q q' P A1 X A2 M S hq hq' hX hA2
      ((hasSub_eq_false _ _).mp hP) ((hasSub_eq_false _ _).mp hcd)
      ((hasSub_eq_false _ _).mp hLast)
    simp [classify, hNR, herrc, hsearch]
  · intro text hNR herrc hNo
    have hs := errSearch_eq_none_no_code text ((hasSub_eq_false _ _).mp hNo)
    simp [classify, hNR, herrc, hs]

theorem spec_c3_witness :
    classify ("<p>".toList ++ (errOpen ++ (" ".toList ++ (codeEq ++
        (dquote :: ("X".toList ++ dquote :: ([] ++ '>' ::
          ("Unknown".toList ++ (errClose ++ "</x>".toList))))))))) =
      .protocolError "X".toList "Unknown".toList ∧
    classify "</error>".toList = .malformed "Could not parse error message" :=
  ⟨spec_c3.1 dquote dquote "<p>".toList " ".toList "X".toList []
      "Unknown".toList "</x>".toList (by decide) (by decide) (by decide)
      (by decide) (by decide) (by decide) (by decide) (by decide),
   spec_c3.2 "</error>".toList (by decide) (by decide) (by decide)⟩

/-- C8: raw text without both metadata-branch markers and without the error
close marker is classified with the fallback diagnostic. -/
theorem spec_c8 (text : List Char)
    (h1 : (hasSub grClose text && hasSub mdClose text) = false)
    (h2 : hasSub errClose text = false) :
    classify text = .malformed "No record found and no error message found" := by
  simp [classify, h1, h2]

theorem spec_c8_witness :
    classify "no markers here".toList =
      .malformed "No record found and no error message found" :=
  spec_c8 "no markers here".toList (by decide) (by decide)

/-! Auxiliary lemmas on the filesystem model. -/

theorem fsGet_cons_ne (e : String × List Char) (fs : FS) (q : String)
    (hne : e.1 ≠ q) : fsGet (e :: fs) q = fsGet fs q := by
  simp only [fsGet]
  rw [List.find?_cons_of_neg _ (by simp [hne])]

theorem fsGet_filter_ne (fs : FS) (p q : String) (hne : q ≠ p) :
    fsGet (fs.filter (fun e => decide (e.1 ≠ p))) q = fsGet fs q := by
  induction fs with
  | nil => rfl
  | cons e fs ih =>
    simp only [List.filter_cons]
    by_cases hep : e.1 = p
    · rw [if_neg (by simp [hep])]
      rw [ih, fsGet_cons_ne e fs q (by rw [hep]; exact fun h => hne h.symm)]
    · rw [if_pos (by simp [hep])]
      by_cases heq : e.1 = q
      · simp only [fsGet]
        rw [List.find?_cons_of_pos _ (by simp [heq]),
          List.find?_cons_of_pos _ (by simp [heq])]
      · rw [fsGet_cons_ne e _ q heq, fsGet_cons_ne e fs q heq, ih]

theorem fsGet_fsWrite_self (fs : FS) (p : String) (c : List Char) :
    fsGet (fsWrite fs p c) p = some c := by
  simp only [fsGet, fsWrite]
  rw [List.find?_cons_of_pos _ (by simp)]
  rfl

theorem fsGet_fsWrite_ne (fs : FS) (p q : String) (c : List Char)
    (hne : q ≠ p) : fsGet (fsWrite fs p c) q = fsGet fs q := by
  simp only [fsWrite]
  rw [fsGet_cons_ne _ _ q (fun h => hne h.symm), fsGet_filter_ne fs p q hne]

theorem fsGet_fsDelete_self (fs : FS) (p : String) :
    fsGet (fsDelete fs p) p = none := by
  simp only [fsGet, fsDelete, Option.map_eq_none']
  rw [List.find?_eq_none]
  intro x hx
  have := List.of_mem_filter hx
  simp only [decide_eq_true_eq] at this
  simp [this]

theorem fsGet_fsDelete_ne (fs : FS) (p q : String) (hne : q ≠ p) :
    fsGet (fsDelete fs p) q = fsGet fs q :=
  fsGet_filter_ne fs p q hne

theorem fsGet_eq_none_not_mem (fs : FS) (p : String) (h : fsGet fs p = none) :
    ∀ e ∈ fs, e.1 ≠ p := by
  intro e he
  simp only [fsGet, Option.map_eq_none'] at h
  have := List.find?_eq_none.mp h e he
  simpa using this

theorem fsDelete_fresh (fs : FS) (p : String) (h : fsGet fs p = none) :
    fsDelete fs p = fs := by
  simp only [fsDelete]
  rw [List.filter_eq_self]
  intro e he
  simp only [decide_eq_true_eq]
  exact fsGet_eq_none_not_mem fs p h e he

theorem fsWrite_fresh (fs : FS) (p : String) (c : List Char)
    (h : fsGet fs p = none) : fsWrite fs p c = (p, c) :: fs := by
  simp only [fsWrite]
  rw [show fs.filter (fun e => decide (e.1 ≠ p)) = fs from by
    rw [List.filter_eq_self]
    intro e he
    simp only [decide_eq_true_eq]
    exact fsGet_eq_none_not_mem fs p h e he]

theorem fsWrite_fsWrite (fs : FS) (p : String) (c d : List Char) :
    fsWrite (fsWrite fs p c) p d = fsWrite fs p d := by
  simp only [fsWrite, List.filter_cons]
  rw [if_neg (by simp), List.filter_filter]
  simp

theorem fsDelete_fsWrite (fs : FS) (p : String) (c : List Char) :
    fsDelete (fsWrite fs p c) p = fsDelete fs p := by
  simp only [fsDelete, fsWrite, List.filter_cons]
  rw [if_neg (by simp), List.filter_filter]
  simp

/-! Per-identifier processing. -/

theorem processDoc_snd (net : Net) (dd du : String) (fs : FS) :
    (processDoc net dd du fs).2 = docFails net du := by
  cases h : net du with
  | none => simp [processDoc, docFails, docOutcome, h]
  | some raw =>
    cases h2 : classify raw <;>
      simp [processDoc, docFails, docOutcome, h, h2]

theorem processDoc_self_fail (net : Net) (dd du : String) (fs : FS)
    (h : docFails net du = true) :
    fsGet (processDoc net dd du fs).1 dd = none := by
  cases hn : net du with
  | none => simp [processDoc, hn, fsGet_fsDelete_self]
  | some raw =>
    cases h2 : classify raw with
    | success payload =>
      simp [docFails, docOutcome, hn, h2] at h
    | _ => simp [processDoc, hn, h2, fsGet_fsDelete_self]

theorem processDoc_self_success (net : Net) (dd du : String) (fs : FS)
    (payload : List Char) (h : docOutcome net du = .success payload) :
    fsGet (processDoc net dd du fs).1 dd = some payload := by
  cases hn : net du with
  | none => rw [docOutcome, hn] at h; exact absurd h (by simp)
  | some raw =>
    rw [docOutcome, hn] at h
    simp only [] at h
    simp [processDoc, hn, h, fsGet_fsWrite_self]

theorem processDoc_frame (net : Net) (dd du : String) (fs : FS) (q : String)
    (hne : q ≠ dd) :
    fsGet (processDoc net dd du fs).1 q = fsGet fs q := by
  cases hn : net du with
  | none => simp [processDoc, hn, fsGet_fsDelete_ne _ _ _ hne]
  | some raw =>
    cases h2 : classify raw <;>
      simp [processDoc, hn, h2, fsGet_fsDelete_ne _ _ _ hne,
        fsGet_fsWrite_ne _ _ _ _ hne]

theorem processDoc_fresh_fail (net : Net) (dd du : String) (fs : FS)
    (hfresh : fsGet fs dd = none) (h : docFails net du = true) :
    (processDoc net dd du fs).1 = fs := by
  cases hn : net du with
  | none => simp [processDoc, hn, fsDelete_fresh fs dd hfresh]
  | some raw =>
    cases h2 : classify raw with
    | success payload =>
      simp [docFails, docOutcome, hn, h2] at h
    | _ =>
      simp [processDoc, hn, h2, fsDelete_fsWrite, fsDelete_fresh fs dd hfresh]

theorem processDoc_fresh_ok (net : Net) (dd du : String) (fs : FS)
    (hfresh : fsGet fs dd = none) (h : docFails net du = false) :
    ∃ c, (processDoc net dd du fs).1 = (dd, c) :: fs := by
  cases hn : net du with
  | none => rw [docFails, docOutcome, hn] at h; simp at h
  | some raw =>
    cases h2 : classify raw with
    | success payload =>
      refine ⟨payload, ?_⟩
      simp only [processDoc, hn, h2]
      rw [fsWrite_fsWrite, fsWrite_fresh fs dd payload hfresh]
    | _ =>
      simp [docFails, docOutcome, hn, h2] at h

/-- C5: persistence occurs only for the Success outcome.  After processing
one identifier: on any failing outcome no file remains at its destination
path, on Success the file holds exactly the stripped extracted payload, and
no other path is touched. -/
theorem spec_c5 (net : Net) (dd du : String) (fs : FS) :
    (docFails net du = true → fsGet (processDoc net dd du fs).1 dd = none) ∧
    (∀ payload, docOutcome net du = .success payload →
      fsGet (processDoc net dd du fs).1 dd = some payload) ∧
    (∀ q, q ≠ dd → fsGet (processDoc net dd du fs).1 q = fsGet fs q) :=
  ⟨processDoc_self_fail net dd du fs,
   fun payload h => processDoc_self_success net dd du fs payload h,
   fun q hq => processDoc_frame net dd du fs q hq⟩

theorem spec_c5_witness :
    fsGet (processDoc (fun _ => none) "d/s/a" "u" [("d/s/a", ['x'])]).1 "d/s/a"
        = none ∧
    fsGet (processDoc (fun _ => some "<GetRecord><metadata>D</metadata></GetRecord>".toList)
        "d/s/a" "u" []).1 "d/s/a" = some ['D'] ∧
    fsGet (processDoc (fun _ => none) "d/s/a" "u" [("d/s/b", ['x'])]).1 "d/s/b"
        = some ['x'] :=
  ⟨(spec_c5 (fun _ => none) "d/s/a" "u" [("d/s/a", ['x'])]).1 (by decide),
   by
    have h := (spec_c5 (fun _ => some "<GetRecord><metadata>D</metadata></GetRecord>".toList)
      "d/s/a" "u" []).2.1 ['D'] (by decide)
    exact h,
   by
    have h := (spec_c5 (fun _ => none) "d/s/a" "u" [("d/s/b", ['x'])]).2.2 "d/s/b"
      (by decide)
    rw [h]
    rfl⟩

/-! The identifier loop and the set, task and run aggregates. -/

theorem processIds_nError (net : Net) (task : RepositoryTask) (os : OutputSet)
    (ids : List String) (fs : FS) :
    (processIds net task os ids fs).nError =
      ids.countP (fun i => docFails net (docUrl task i)) := by
  induction ids generalizing fs with
  | nil => simp [processIds]
  | cons i rest ih =>
    simp [processIds, List.countP_cons, processDoc_snd, ih]

theorem processIds_attempted (net : Net) (task : RepositoryTask)
    (os : OutputSet) (ids : List String) (fs : FS) :
    (processIds net task os ids fs).attempted = ids := by
  induction ids generalizing fs with
  | nil => rfl
  | cons i rest ih => simp [processIds, ih]

theorem isUnder_docDest (task : RepositoryTask) (os : OutputSet) (i : String) :
    isUnder (setDest task os) (docDest task os i) = true := by
  simp only [isUnder, docDest, List.isPrefixOf_iff_prefix, String.data_append]
  exact List.prefix_append _ _

theorem countFilesUnder_cons (dir : String) (e : String × List Char) (fs : FS) :
    countFilesUnder dir (e :: fs) =
      countFilesUnder dir fs + (if isUnder dir e.1 then 1 else 0) := by
  simp [countFilesUnder, List.countP_cons]

theorem processIds_countFilesUnder (net : Net) (task : RepositoryTask)
    (os : OutputSet) (ids : List String) (fs : FS)
    (hpw : List.Pairwise (fun a b => docDest task os a ≠ docDest task os b) ids)
    (hfresh : ∀ i ∈ ids, fsGet fs (docDest task os i) = none) :
    countFilesUnder (setDest task os) (processIds net task os ids fs).fs =
      countFilesUnder (setDest task os) fs +
        ids.countP (fun i => !(docFails net (docUrl task i))) := by
  induction ids generalizing fs with
  | nil => simp [processIds]
  | cons i rest ih =>
    have hfi : fsGet fs (docDest task os i) = none := hfresh i (by simp)
    rcases List.pairwise_cons.mp hpw with ⟨hi, hpw'⟩
    cases hfail : docFails net (docUrl task i) with
    | true =>
      have hfs : (processDoc net (docDest task os i) (docUrl task i) fs).1 = fs :=
        processDoc_fresh_fail net _ _ fs hfi hfail
      simp only [processIds, hfs]
      rw [ih fs hpw' (fun j hj => hfresh j (by simp [hj]))]
      simp [List.countP_cons, hfail]
    | false =>
      obtain ⟨c, hfs⟩ :=
        processDoc_fresh_ok net (docDest task os i) (docUrl task i) fs hfi hfail
      simp only [processIds, hfs]
      rw [ih ((docDest task os i, c) :: fs) hpw' ?_]
      · rw [countFilesUnder_cons]
        simp [List.countP_cons, hfail, isUnder_docDest]
        omega
      · intro j hj
        rw [fsGet_cons_ne _ _ _ (hi j hj)]
        exact hfresh j (by simp [hj])

theorem harvestSet_good (env : DirEnv) (net : Net) (task : RepositoryTask)
    (os : OutputSet) (fs : FS) :
    ((harvestSet env net task os fs).dirFine &&
      decide ((harvestSet env net task os fs).nError = 0)) =
        setGood env net task os := by
  cases h : dirOk (env (setDest task os)) with
  | true => simp [harvestSet, h, setGood, setFailures, processIds_nError]
  | false => simp [harvestSet, h, setGood]

theorem harvestSets_good (env : DirEnv) (net : Net) (task : RepositoryTask)
    (sets : List OutputSet) (fs : FS) :
    (harvestSets env net task sets fs).good = sets.all (setGood env net task) := by
  induction sets generalizing fs with
  | nil => simp [harvestSets]
  | cons os rest ih =>
    simp [harvestSets, ih, harvestSet_good, List.all_cons]

theorem harvest_good (env : DirEnv) (net : Net) (task : RepositoryTask)
    (fs : FS) : (harvest env net task fs).good = taskGood env net task := by
  cases h : dirOk (env task.dest) with
  | true => simp [harvest, h, taskGood, harvestSets_good]
  | false => simp [harvest, h, taskGood]

/-- C1: the boolean returned by harvestAll is the conjunction over all tasks
of the destination-root check and, over all sets of the task, of the
subdirectory check together with a zero failure count. -/
theorem spec_c1 (env : DirEnv) (net : Net) (tasks : List RepositoryTask)
    (fs : FS) :
    (harvestAll env net tasks fs).good = tasks.all (taskGood env net) := by
  induction tasks generalizing fs with
  | nil => simp [harvestAll, harvestTasks]
  | cons task rest ih =>
    simp only [harvestAll, harvestTasks] at *
    simp [harvest_good, ih, List.all_cons]

/-- C6: a failing destination-root check fails the whole task at once: the
result is bad, the filesystem is untouched and no document is attempted. -/
theorem spec_c6 (env : DirEnv) (net : Net) (task : RepositoryTask) (fs : FS)
    (h : dirOk (env task.dest) = false) :
    harvest env net task fs = ⟨fs, false, []⟩ := by
  simp [harvest, h]

theorem spec_c6_witness :
    harvest (fun _ => DirStatus.isFile) (fun _ => none)
        ⟨"r", "u", "m", "d", [⟨"s", ["a"]⟩]⟩ [] =
      ⟨[], false, []⟩ :=
  spec_c6 (fun _ => DirStatus.isFile) (fun _ => none)
    ⟨"r", "u", "m", "d", [⟨"s", ["a"]⟩]⟩ [] (by decide)

theorem harvestSet_attempted (env : DirEnv) (net : Net) (task : RepositoryTask)
    (os : OutputSet) (fs : FS) :
    (harvestSet env net task os fs).attempted =
      if dirOk (env (setDest task os)) then sortIds os.ids else [] := by
  cases h : dirOk (env (setDest task os)) <;>
    simp [harvestSet, h, processIds_attempted]

theorem harvestSets_attempted (env : DirEnv) (net : Net)
    (task : RepositoryTask) (sets : List OutputSet) (fs : FS) :
    (harvestSets env net task sets fs).attempted =
      (sets.filter (fun os => dirOk (env (setDest task os)))).flatMap
        (fun os => (sortIds os.ids).map (fun i => (os.name, i))) := by
  induction sets generalizing fs with
  | nil => simp [harvestSets]
  | cons os rest ih =>
    simp only [harvestSets]
    rw [ih]
    cases h : dirOk (env (setDest task os)) with
    | true => simp [List.filter_cons, h, harvestSet_attempted]
    | false => simp [List.filter_cons, h, harvestSet_attempted]

theorem harvest_attempted (env : DirEnv) (net : Net) (task : RepositoryTask)
    (fs : FS) (h : dirOk (env task.dest) = true) :
    (harvest env net task fs).attempted =
      (task.sets.filter (fun os => dirOk (env (setDest task os)))).flatMap
        (fun os => (sortIds os.ids).map (fun i => (os.name, i))) := by
  simp [harvest, h, harvestSets_attempted]

/-- C7: failures are isolated.  The attempted identifiers of a task with a
good destination root are exactly the sorted identifiers of every set whose
subdirectory check passes, in order, independently of every fetch or
classification outcome; and a set with a bad subdirectory is skipped but
still marks the task bad without stopping its siblings. -/
theorem spec_c7 :
    (∀ (env : DirEnv) (net : Net) (task : RepositoryTask) (fs : FS),
      dirOk (env task.dest) = true →
      (harvest env net task fs).attempted =
        (task.sets.filter (fun os => dirOk (env (setDest task os)))).flatMap
          (fun os => (sortIds os.ids).map (fun i => (os.name, i)))) ∧
    (∀ (env : DirEnv) (net : Net) (task : RepositoryTask) (os : OutputSet)
      (fs : FS), os ∈ task.sets → dirOk (env (setDest task os)) = false →
      (harvest env net task fs).good = false) := by
  constructor
  · exact fun env net task fs h => harvest_attempted env net task fs h
  · intro env net task os fs h1 h2
    have hos : setGood env net task os = false := by simp [setGood, h2]
    have hall : task.sets.all (setGood env net task) = false := by
      rw [Bool.eq_false_iff]
      intro hcontra
      have := List.all_eq_true.mp hcontra os h1
      rw [hos] at this
      simp at this
    rw [harvest_good]
    simp [taskGood, hall]

theorem spec_c7_witness :
    (harvest (fun _ => DirStatus.isDir) (fun _ => none)
        ⟨"r", "u", "m", "d", [⟨"s", ["b", "a"]⟩, ⟨"t", ["c"]⟩]⟩ []).attempted =
      (([⟨"s", ["b", "a"]⟩, ⟨"t", ["c"]⟩] : List OutputSet).filter
          (fun os => dirOk ((fun _ => DirStatus.isDir)
            (setDest ⟨"r", "u", "m", "d", [⟨"s", ["b", "a"]⟩, ⟨"t", ["c"]⟩]⟩ os)))).flatMap
        (fun os => (sortIds os.ids).map (fun i => (os.name, i))) ∧
    (harvest (fun p => if p = "d/s" then DirStatus.isFile else DirStatus.isDir)
        (fun _ => none) ⟨"r", "u", "m", "d", [⟨"s", ["a"]⟩, ⟨"t", ["c"]⟩]⟩ []).good =
      false :=
  ⟨spec_c7.1 (fun _ => DirStatus.isDir) (fun _ => none)
      ⟨"r", "u", "m", "d", [⟨"s", ["b", "a"]⟩, ⟨"t", ["c"]⟩]⟩ [] (by decide),
   spec_c7.2 (fun p => if p = "d/s" then DirStatus.isFile else DirStatus.isDir)
      (fun _ => none) ⟨"r", "u", "m", "d", [⟨"s", ["a"]⟩, ⟨"t", ["c"]⟩]⟩
      ⟨"s", ["a"]⟩ [] (List.mem_cons_self _ _) (by decide)⟩

/-! The code-point order on identifiers. -/

theorem listLe_total (a b : List Char) : listLe a b = true ∨ listLe b a = true := by
  induction a generalizing b with
  | nil => left; rfl
  | cons x xs ih =>
    cases b with
    | nil => right; rfl
    | cons y ys =>
      rcases lt_trichotomy x y with h | h | h
      · left; simp [listLe, h]
      · subst h
        rcases ih ys with h2 | h2
        · left; simp [listLe, lt_irrefl, h2]
        · right; simp [listLe, lt_irrefl, h2]
      · right; simp [listLe, h]

theorem listLe_trans (a b c : List Char) (h1 : listLe a b = true)
    (h2 : listLe b c = true) : listLe a c = true := by
  induction a generalizing b c with
  | nil => rfl
  | cons x xs ih =>
    cases b with
    | nil => simp [listLe] at h1
    | cons y ys =>
      cases c with
      | nil => simp [listLe] at h2
      | cons z zs =>
        simp only [listLe] at h1 h2 ⊢
        by_cases hxy : x < y
        · by_cases hyz : y < z
          · simp [lt_trans hxy hyz]
          · by_cases hzy : z < y
            · rw [if_neg hyz, if_pos hzy] at h2
              simp at h2
            · have : y = z := le_antisymm (not_lt.mp hzy) (not_lt.mp hyz)
              subst this
              simp [hxy]
        · by_cases hyx : y < x
          · rw [if_neg hxy, if_pos hyx] at h1
            simp at h1
          · have hxyeq : x = y := le_antisymm (not_lt.mp hyx) (not_lt.mp hxy)
            subst hxyeq
            rw [if_neg hxy, if_neg hyx] at h1
            by_cases hyz : x < z
            · simp [hyz]
            · by_cases hzy : z < x
              · rw [if_neg hyz, if_pos hzy] at h2
                simp at h2
              · have : x = z := le_antisymm (not_lt.mp hzy) (not_lt.mp hyz)
                subst this
                rw [if_neg hyz, if_neg hzy] at h2
                simp only [if_neg hyz, if_neg hzy]
                exact ih ys zs h1 h2

instance : IsTotal String idLe :=
  ⟨fun a b => listLe_total a.data b.data⟩

instance : IsTrans String idLe :=
  ⟨fun a b c => listLe_trans a.data b.data c.data⟩

theorem listLe_iff_not_lex (a b : List Char) :
    listLe a b = true ↔ ¬ List.Lex (· < ·) b a := by
  induction a generalizing b with
  | nil =>
    constructor
    · intro _ hl
      cases hl
    · intro _
      rfl
  | cons x xs ih =>
    cases b with
    | nil =>
      constructor
      · intro h
        exact absurd h (by simp [listLe])
      · intro h
        exact absurd List.Lex.nil h
    | cons y ys =>
      by_cases hxy : x < y
      · simp only [listLe, if_pos hxy]
        constructor
        · intro _ hl
          cases hl with
          | cons h2 => exact lt_irrefl x hxy
          | rel h2 => exact lt_asymm hxy h2
        · intro _
          trivial
      · by_cases hyx : y < x
        · simp only [listLe, if_neg hxy, if_pos hyx]
          constructor
          · intro h
            exact absurd h (by simp)
          · intro h
            exact absurd (List.Lex.rel hyx) h
        · have hxyeq : x = y := le_antisymm (not_lt.mp hyx) (not_lt.mp hxy)
          subst hxyeq
          simp only [listLe, if_neg hxy, if_neg hyx]
          rw [ih ys]
          constructor
          · intro h hl
            cases hl with
            | cons h2 => exact h h2
            | rel h2 => exact lt_irrefl x h2
          · intro h h2
            exact h (List.Lex.cons h2)

theorem idLe_le (a b : String) (h : idLe a b) : a ≤ b := by
  rw [String.le_iff_toList_le]
  refine not_lt.mp ?_
  intro hl
  exact (listLe_iff_not_lex a.data b.data).mp h hl

/-- C9: within a set, identifiers are attempted in ascending code-point
order, one pass over exactly the identifiers of the set; across a task,
sets are processed in the order given by the task model. -/
theorem spec_c9 :
    (∀ (env : DirEnv) (net : Net) (task : RepositoryTask) (os : OutputSet)
      (fs : FS), dirOk (env (setDest task os)) = true →
      (harvestSet env net task os fs).attempted = sortIds os.ids ∧
      List.Sorted (· ≤ ·) (harvestSet env net task os fs).attempted ∧
      ((harvestSet env net task os fs).attempted).Perm os.ids) ∧
    (∀ (env : DirEnv) (net : Net) (task : RepositoryTask) (fs : FS),
      dirOk (env task.dest) = true →
      (harvest env net task fs).attempted =
        (task.sets.filter (fun os => dirOk (env (setDest task os)))).flatMap
          (fun os => (sortIds os.ids).map (fun i => (os.name, i)))) := by
  constructor
  · intro env net task os fs h
    have hatt : (harvestSet env net task os fs).attempted = sortIds os.ids := by
      rw [harvestSet_attempted, if_pos h]
    refine ⟨hatt, ?_, ?_⟩
    · rw [hatt]
      exact List.Pairwise.imp (fun hab => idLe_le _ _ hab)
        (List.sorted_insertionSort idLe os.ids)
    · rw [hatt]
      exact List.perm_insertionSort idLe os.ids
  · exact fun env net task fs h => harvest_attempted env net task fs h

theorem spec_c9_witness :
    ((harvestSet (fun _ => DirStatus.isDir) (fun _ => none)
        ⟨"r", "u", "m", "d", []⟩ ⟨"s", ["b", "a"]⟩ []).attempted =
          sortIds ["b", "a"] ∧
      List.Sorted (· ≤ ·) (harvestSet (fun _ => DirStatus.isDir) (fun _ => none)
        ⟨"r", "u", "m", "d", []⟩ ⟨"s", ["b", "a"]⟩ []).attempted ∧
      ((harvestSet (fun _ => DirStatus.isDir) (fun _ => none)
        ⟨"r", "u", "m", "d", []⟩ ⟨"s", ["b", "a"]⟩ []).attempted).Perm
          ["b", "a"]) ∧
    (harvest (fun _ => DirStatus.isDir) (fun _ => none)
        ⟨"r", "u", "m", "d", [⟨"s", ["a"]⟩]⟩ []).attempted =
      (([⟨"s", ["a"]⟩] : List OutputSet).filter
          (fun os => dirOk ((fun _ => DirStatus.isDir)
            (setDest ⟨"r", "u", "m", "d", [⟨"s", ["a"]⟩]⟩ os)))).flatMap
        (fun os => (sortIds os.ids).map (fun i => (os.name, i))) :=
  ⟨spec_c9.1 (fun _ => DirStatus.isDir) (fun _ => none) ⟨"r", "u", "m", "d", []⟩
      ⟨"s", ["b", "a"]⟩ [] (by decide),
   spec_c9.2 (fun _ => DirStatus.isDir) (fun _ => none)
      ⟨"r", "u", "m", "d", [⟨"s", ["a"]⟩]⟩ [] (by decide)⟩

theorem fsGet_none_of_countZero (dir : String) (fs : FS) (p : String)
    (hz : countFilesUnder dir fs = 0) (hp : isUnder dir p = true) :
    fsGet fs p = none := by
  have hall := List.countP_eq_zero.mp hz
  cases hfind : (fs.find? (fun e => decide (e.1 = p))) with
  | none => simp [fsGet, hfind]
  | some e =>
    have hmem := List.mem_of_find?_eq_some hfind
    have heq : e.1 = p := by simpa using List.find?_some hfind
    exact absurd (heq ▸ hp) (by simpa using hall e hmem)

/-- C4 counterexample: a set of two identifiers that both succeed but whose
sanitized destination paths collide leaves one file, not two, so the claim
that exactly N minus K files exist fails without distinctness of the
sanitized paths. -/
theorem counterexample_c4 :
    (harvestSet (fun _ => DirStatus.isDir)
        (fun _ => some "<GetRecord><metadata>D</metadata></GetRecord>".toList)
        ⟨"r", "u", "m", "d", []⟩ ⟨"s", ["a-b", "a:b"]⟩ []).nError = 0 ∧
    countFilesUnder (setDest ⟨"r", "u", "m", "d", []⟩ ⟨"s", ["a-b", "a:b"]⟩)
      (harvestSet (fun _ => DirStatus.isDir)
        (fun _ => some "<GetRecord><metadata>D</metadata></GetRecord>".toList)
        ⟨"r", "u", "m", "d", []⟩ ⟨"s", ["a-b", "a:b"]⟩ []).fs = 1 ∧
    (1 : Nat) ≠ (["a-b", "a:b"] : List String).length - 0 := by
  refine ⟨by decide, by decide, by decide⟩

/-- C4 amended: for a set whose subdirectory check passes, whose sanitized
destination paths are pairwise distinct, and whose directory subtree is
initially empty, the recorded failure count is the number K of failing
identifiers, the success count N minus K and the failure count sum to N,
and exactly N minus K files exist in the subtree afterwards. -/
theorem spec_c4 (env : DirEnv) (net : Net) (task : RepositoryTask)
    (os : OutputSet) (fs : FS)
    (h1 : dirOk (env (setDest task os)) = true)
    (h2 : List.Pairwise (fun a b => docDest task os a ≠ docDest task os b) os.ids)
    (h3 : countFilesUnder (setDest task os) fs = 0) :
    (harvestSet env net task os fs).nError =
      os.ids.countP (fun i => docFails net (docUrl task i)) ∧
    (os.ids.length - (harvestSet env net task os fs).nError) +
      (harvestSet env net task os fs).nError = os.ids.length ∧
    countFilesUnder (setDest task os) (harvestSet env net task os fs).fs =
      os.ids.length - os.ids.countP (fun i => docFails net (docUrl task i)) := by
  have hperm : (sortIds os.ids).Perm os.ids := List.perm_insertionSort idLe os.ids
  have hn : (harvestSet env net task os fs).nError =
      os.ids.countP (fun i => docFails net (docUrl task i)) := by
    simp only [harvestSet, if_pos h1]
    rw [processIds_nError]
    exact hperm.countP_eq _
  have hle := List.countP_le_length
    (fun i => docFails net (docUrl task i)) (l := os.ids)
  refine ⟨hn, by omega, ?_⟩
  have hpw : List.Pairwise (fun a b => docDest task os a ≠ docDest task os b)
      (sortIds os.ids) :=
    (hperm.pairwise_iff (fun hab => Ne.symm hab)).mpr h2
  have hfresh : ∀ i ∈ sortIds os.ids, fsGet fs (docDest task os i) = none :=
    fun i _ => fsGet_none_of_countZero _ fs _ h3 (isUnder_docDest task os i)
  have hcount :=
    processIds_countFilesUnder net task os (sortIds os.ids) fs hpw hfresh
  have haux : ∀ l : List String,
      l.countP (fun i => !(docFails net (docUrl task i))) =
        l.length - l.countP (fun i => docFails net (docUrl task i)) := by
    intro l
    induction l with
    | nil => rfl
    | cons a t ih =>
      have hb := List.countP_le_length
        (fun i => docFails net (docUrl task i)) (l := t)
      simp only [List.countP_cons, List.length_cons, ih]
      cases h : docFails net (docUrl task a) <;> simp <;> omega
  simp only [harvestSet, if_pos h1]
  rw [hcount, h3, haux]
  rw [hperm.length_eq, hperm.countP_eq]
  omega

theorem spec_c4_witness :
    (harvestSet (fun _ => DirStatus.isDir) (fun _ => none)
        ⟨"r", "u", "m", "d", []⟩ ⟨"s", ["a", "b"]⟩ []).nError =
      (["a", "b"] : List String).countP
        (fun i => docFails (fun _ => none)
          (docUrl ⟨"r", "u", "m", "d", []⟩ i)) ∧
    ((["a", "b"] : List String).length -
        (harvestSet (fun _ => DirStatus.isDir) (fun _ => none)
          ⟨"r", "u", "m", "d", []⟩ ⟨"s", ["a", "b"]⟩ []).nError) +
      (harvestSet (fun _ => DirStatus.isDir) (fun _ => none)
        ⟨"r", "u", "m", "d", []⟩ ⟨"s", ["a", "b"]⟩ []).nError =
      (["a", "b"] : List String).length ∧
    countFilesUnder (setDest ⟨"r", "u", "m", "d", []⟩ ⟨"s", ["a", "b"]⟩)
        (harvestSet (fun _ => DirStatus.isDir) (fun _ => none)
          ⟨"r", "u", "m", "d", []⟩ ⟨"s", ["a", "b"]⟩ []).fs =
      (["a", "b"] : List String).length -
        (["a", "b"] : List String).countP
          (fun i => docFails (fun _ => none)
            (docUrl ⟨"r", "u", "m", "d", []⟩ i)) :=
  spec_c4 (fun _ => DirStatus.isDir) (fun _ => none) ⟨"r", "u", "m", "d", []⟩
    ⟨"s", ["a", "b"]⟩ [] (by decide) (by decide) (by decide)

/-- C10: the identifier-to-path mapping is not injective.  The identifiers
a:b and a-b are distinct yet share one sanitized destination path, and in a
run where a-b succeeds first and a:b then fails at the same path, the
failure cleanup of a:b deletes the file that held the payload of a-b. -/
theorem spec_c10 :
    sanitize "a:b" = sanitize "a-b" ∧
    ("a:b" : String) ≠ "a-b" ∧
    docDest ⟨"r", "u", "m", "d", []⟩ ⟨"s", ["a-b", "a:b"]⟩ "a:b" =
      docDest ⟨"r", "u", "m", "d", []⟩ ⟨"s", ["a-b", "a:b"]⟩ "a-b" ∧
    docFails
      (fun u => if u = docUrl ⟨"r", "u", "m", "d", []⟩ "a-b"
        then some "<GetRecord><metadata>D</metadata></GetRecord>".toList
        else some ("<error code=".toList ++ [dquote, 'i', dquote] ++
          ">no</error>".toList))
      (docUrl ⟨"r", "u", "m", "d", []⟩ "a-b") = false ∧
    fsGet (harvestSet (fun _ => DirStatus.isDir)
      (fun u => if u = docUrl ⟨"r", "u", "m", "d", []⟩ "a-b"
        then some "<GetRecord><metadata>D</metadata></GetRecord>".toList
        else some ("<error code=".toList ++ [dquote, 'i', dquote] ++
          ">no</error>".toList))
      ⟨"r", "u", "m", "d", []⟩ ⟨"s", ["a-b", "a:b"]⟩ []).fs
      (docDest ⟨"r", "u", "m", "d", []⟩ ⟨"s", ["a-b", "a:b"]⟩ "a-b") = none := by
  refine ⟨by decide, by decide, by decide, by decide, by decide⟩
